import Mathlib

/-!
Shallow embedding of `src/vs/platform/actions/common/commandsExtensionPoint.ts`:
the "commands" extension point of the host — validation of raw command
contributions, icon-path normalization, the global contribution registry with
its freeze step, and the command-action invocation chain.

Raw contribution values arrive as loosely-typed JSON-like data, so we model
JavaScript values by an inductive type `JSVal` together with the JavaScript
primitives the source uses: `typeof`, truthiness, property access and property
assignment.  Validation functions return the boolean the source returns plus
the list of messages reported to the per-extension error collector; a
`TypeError` thrown by the JavaScript (property access on `null`) is modelled
with `Except Unit`.
-/

set_option autoImplicit false

/-- A JavaScript value as far as this extension point observes it:
`undefined`, `null`, booleans, numbers, strings, arrays and plain objects
(a list of named fields). -/
inductive JSVal where
  | undefined
  | null
  | bool (b : Bool)
  | num (n : Int)
  | str (s : String)
  | arr (elems : List JSVal)
  | obj (fields : List (String × JSVal))

/-- JavaScript `typeof`. Note `typeof null === "object"` and arrays are
objects. -/
def typeof : JSVal → String
  | .undefined => "undefined"
  | .null => "object"
  | .bool _ => "boolean"
  | .num _ => "number"
  | .str _ => "string"
  | .arr _ => "object"
  | .obj _ => "object"

/-- JavaScript truthiness: `undefined`, `null`, `false`, `0` and `""` are
falsy; every object and array is truthy. -/
def truthy : JSVal → Bool
  | .undefined => false
  | .null => false
  | .bool b => b
  | .num n => decide (n ≠ 0)
  | .str s => decide (s ≠ "")
  | .arr _ => true
  | .obj _ => true

/-- Look a key up in an object's field list (first binding wins);
`.undefined` when absent. -/
def getField : List (String × JSVal) → String → JSVal
  | [], _ => .undefined
  | (k, v) :: rest, key => if k = key then v else getField rest key

/-- Property read `x.key` on a truthy value: field lookup on objects,
`undefined` on every non-object (the source only reads properties after a
truthiness or `typeof` guard, except for the `null`-icon case which is
modelled as the thrown `TypeError` in `isValidIcon`). -/
def jsGet : JSVal → String → JSVal
  | .obj fields, key => getField fields key
  | _, _ => .undefined

/-- Replace the binding of `key` in a field list, appending when absent —
the effect of a JavaScript property assignment on the field list. -/
def setField : List (String × JSVal) → String → JSVal → List (String × JSVal)
  | [], key, v => [(key, v)]
  | (k, w) :: rest, key, v =>
      if k = key then (key, v) :: rest else (k, w) :: setField rest key v

/-- Property assignment `x.key = v`: updates objects, leaves every other
value unchanged (the source only assigns to values known to be objects). -/
def objSet : JSVal → String → JSVal → JSVal
  | .obj fields, key, v => .obj (setField fields key v)
  | other, _, _ => other

/-- Error message of the `nonempty` localize call. -/
def nonemptyMsg : String := "expected non-empty value."

/-- Error message of the `requirestring` localize call, with the property
name substituted for the placeholder. -/
def requirestringMsg (p : String) : String :=
  "property `" ++ p ++ "` is mandatory and must be of type `string`"

/-- Error message of the `optstring` localize call, with the property name
substituted for the placeholder. -/
def optstringMsg (p : String) : String :=
  "property `" ++ p ++ "` can be omitted or must be of type `string`"

/-- Error message of the `opticon` localize call. -/
def opticonMsg : String :=
  "property `icon` can be omitted or must be either a string or a literal like `\x7bdark, light\x7d`"

/-- Error message of the `optwhere` localize call. -/
def optwhereMsg : String :=
  "property `where` can be omitted or must be a valid enum value"

/-- Error message of the `requirefilter` localize call. -/
def requirefilterMsg : String :=
  "property `when` is mandatory and must be a string or like `\x7blanguage, scheme, pattern\x7d`"

/-- `isThemableIcon`: true iff the value is a truthy object whose `dark` and
`light` properties are both strings (`typeof thing === 'object' && thing &&
typeof thing.dark === 'string' && typeof thing.light === 'string'`). -/
def isThemableIcon (thing : JSVal) : Bool :=
  typeof thing = "object" && truthy thing &&
    typeof (jsGet thing "dark") = "string" && typeof (jsGet thing "light") = "string"

/- `validation.isValidWhere`: an array is valid iff every element is
(`where.every(...)`, short-circuiting at the first failure); a scalar is
valid iff it is one of the three Location enum strings, else the `optwhere`
error is reported. Returns the boolean and the reported messages. -/
mutual

/-- Scalar-or-array dispatch of `validation.isValidWhere`. -/
def isValidWhere : JSVal → Bool × List String
  | .arr xs => isValidWhereEvery xs
  | .str s =>
      if s = "editor/primary" ∨ s = "editor/secondary" ∨ s = "explorer/context" then
        (true, [])
      else
        (false, [optwhereMsg])
  | _ => (false, [optwhereMsg])

/-- The `where.every(where => isValidWhere(where, user))` loop:
short-circuits at the first invalid element. -/
def isValidWhereEvery : List JSVal → Bool × List String
  | [] => (true, [])
  | x :: rest =>
      match isValidWhere x with
      | (true, _) => isValidWhereEvery rest
      | (false, errs) => (false, errs)

end

/- `validation.isValidWhen`: for an array, the loop returns false as soon as
one element fails; note that when the loop completes, control falls through
to the error report, so an array — even with all-valid elements — always
yields `false` with the `requirefilter` error. A scalar is valid iff its
`typeof` is `string` or `object` (which includes `null`); everything else
falls through to the error. -/
mutual

/-- Scalar-or-array dispatch of `validation.isValidWhen`. -/
def isValidWhen : JSVal → Bool × List String
  | .arr xs => isValidWhenLoop xs
  | .str _ => (true, [])
  | .null => (true, [])
  | .obj _ => (true, [])
  | _ => (false, [requirefilterMsg])

/-- The `for (let w of when)` loop of `isValidWhen`: returns false at the
first invalid element; when the loop completes, control falls through to the
`requirefilter` error report. -/
def isValidWhenLoop : List JSVal → Bool × List String
  | [] => (false, [requirefilterMsg])
  | x :: rest =>
      match isValidWhen x with
      | (false, errs) => (false, errs)
      | (true, _) => isValidWhenLoop rest

end

/-- `validation.isValidIcon`: `undefined` and strings are valid; an object is
valid iff its `dark` and `light` properties are both strings — but reading
`.dark` of `null` (whose `typeof` is `"object"`) throws a `TypeError`,
modelled as `.error ()`. Anything else reports the `opticon` error. -/
def isValidIcon (icon : JSVal) : Except Unit (Bool × List String) :=
  if typeof icon = "undefined" then
    .ok (true, [])
  else if typeof icon = "string" then
    .ok (true, [])
  else
    match icon with
    | .null => .error ()
    | _ =>
        if typeof icon = "object" ∧ typeof (jsGet icon "dark") = "string" ∧
            typeof (jsGet icon "light") = "string" then
          .ok (true, [])
        else
          .ok (false, [opticonMsg])

/-- Modelled from the spec: `join` of `vs/base/common/paths` is imported by
the source but its code is not under `src/`; the spec describes it as
platform-neutral path-segment joining with `join("/ext/acme", "icons/go.png")
= "/ext/acme/icons/go.png"`. -/
def pathsJoin (a b : String) : String := a ++ "/" ++ b

/-- The icon-normalization step at the end of `isValidCommand` ("make icon
paths absolute"): a string icon is replaced by `join(root, icon)`; a themable
icon has its `dark` and `light` properties replaced by the joined values
(in place, preserving the icon object's other fields); otherwise nothing
changes. -/
def normalizeIcon (root : String) (candidate : JSVal) : JSVal :=
  let icon := jsGet candidate "icon"
  match icon with
  | .str s => objSet candidate "icon" (.str (pathsJoin root s))
  | _ =>
      if isThemableIcon icon then
        match jsGet icon "dark", jsGet icon "light" with
        | .str d, .str l =>
            objSet candidate "icon"
              (objSet (objSet icon "dark" (.str (pathsJoin root d)))
                "light" (.str (pathsJoin root l)))
        | _, _ => candidate
      else candidate

/-- `validation.isValidCommand` for an extension whose install root is
`root`: the chain of short-circuiting checks on `candidate`, followed on
success by the in-place icon normalization. Returns the boolean result, the
candidate as left by the call (normalized only on success), and the messages
reported to the collector; `.error ()` is the `TypeError` thrown when the
icon is `null`. -/
def isValidCommand (root : String) (candidate : JSVal) :
    Except Unit (Bool × JSVal × List String) :=
  if truthy candidate = false then
    .ok (false, candidate, [nonemptyMsg])
  else if typeof (jsGet candidate "command") ≠ "string" then
    .ok (false, candidate, [requirestringMsg "command"])
  else if typeof (jsGet candidate "title") ≠ "string" then
    .ok (false, candidate, [requirestringMsg "title"])
  else if truthy (jsGet candidate "category") = true ∧
      typeof (jsGet candidate "category") ≠ "string" then
    .ok (false, candidate, [optstringMsg "category"])
  else
    match isValidIcon (jsGet candidate "icon") with
    | .error e => .error e
    | .ok (false, errs) => .ok (false, candidate, errs)
    | .ok (true, _) => .ok (true, normalizeIcon root candidate, [])

/-- The global `commands` array together with its `Object.freeze` state:
`items` is the array content, `frozen` records whether `Object.freeze` has
run. -/
structure CommandRegistry where
  items : List JSVal
  frozen : Bool

/-- `commands.push(x)`: appends while the array is open; once frozen the
array can no longer change (in strict mode the push throws, and in either
case the content stays what it was at freeze time). -/
def pushCommand (r : CommandRegistry) (v : JSVal) : CommandRegistry :=
  if r.frozen then r else { r with items := r.items ++ [v] }

/-- `handleCommand`: validate one candidate for the extension rooted at
`root` and push it (icon-normalized) when valid; `errs` is the extension's
collector, to which the reported messages are appended. `.error ()`
propagates the `TypeError` of the `null`-icon case. -/
def handleCommand (root : String) (command : JSVal) (r : CommandRegistry)
    (errs : List String) : Except Unit (CommandRegistry × List String) :=
  match isValidCommand root command with
  | .error e => .error e
  | .ok (true, command2, msgs) => .ok (pushCommand r command2, errs ++ msgs)
  | .ok (false, _, msgs) => .ok (r, errs ++ msgs)

/-- One extension's declared value as the list of candidates the handler
loops over: an array contributes its elements, anything else is handled as a
single candidate. -/
def candidatesOf : JSVal → List JSVal
  | .arr xs => xs
  | v => [v]

/-- The handler's loop over one extension's candidates, threading the
registry and the extension's collector. -/
def handleCommands (root : String) : List JSVal → CommandRegistry → List String →
    Except Unit (CommandRegistry × List String)
  | [], r, errs => .ok (r, errs)
  | c :: rest, r, errs =>
      match handleCommand root c r errs with
      | .error e => .error e
      | .ok (r2, errs2) => handleCommands root rest r2 errs2

/-- The `setHandler` callback over a whole batch: each extension is a pair of
its install root and its declared value, with a fresh per-extension
collector; after the batch is drained the registry is frozen
(`Object.freeze(commands)`). Returns the final registry and the collectors'
contents, one list of messages per extension. -/
def runHandler : List (String × JSVal) → CommandRegistry →
    Except Unit (CommandRegistry × List (List String))
  | [], r => .ok ({ r with frozen := true }, [])
  | (root, value) :: rest, r =>
      match handleCommands root (candidatesOf value) r [] with
      | .error e => .error e
      | .ok (r2, errs) =>
          match runHandler rest r2 with
          | .error e => .error e
          | .ok (r3, errsList) => .ok (r3, errs :: errsList)

/-- The candidate as it ends up in the registry when `isValidCommand`
accepts it — its icon-normalized form — and `none` when it is rejected or
the validation throws. -/
def acceptedCmd (root : String) (c : JSVal) : Option JSVal :=
  match isValidCommand root c with
  | .ok (true, c2, _) => some c2
  | _ => none

/-- The registry entries a whole batch should contribute: all accepted
candidates, in arrival order within and across extensions. -/
def acceptedBatch : List (String × JSVal) → List JSVal
  | [] => []
  | (root, value) :: rest =>
      (candidatesOf value).filterMap (acceptedCmd root) ++ acceptedBatch rest

/-- `CommandAction`'s `_actionCallback`, instrumented with a flag recording
whether the dispatcher ran: ensure activation of `onCommand:<id>` completes,
then — only on success — execute the command by id with the invocation's
arguments and propagate the dispatcher's outcome; an activation failure is
the invocation's own failure and the dispatcher is never called. -/
def invokeCommandAction {Err Res : Type} (activate : String → Except Err Unit)
    (execute : String → List JSVal → Except Err Res)
    (commandId : String) (args : List JSVal) : Except Err Res × Bool :=
  match activate ("onCommand:" ++ commandId) with
  | .error e => (.error e, false)
  | .ok _ => (execute commandId args, true)

/-- A value of the `Locations` string-enum type. -/
def isLocation : JSVal → Bool
  | .str s => s = "editor/primary" || s = "editor/secondary" || s = "explorer/context"
  | _ => false

/-- The `where` field is absent or well-typed per the declared model
(`Locations | Locations[]`). -/
def whereWellTyped : JSVal → Bool
  | .undefined => true
  | .arr xs => xs.all isLocation
  | w => isLocation w

/-- A value shaped like the `ResourceFilter` interface: an object whose
`language`, `scheme` and `pattern` fields are each absent or strings. -/
def isResourceFilter : JSVal → Bool
  | .obj fields =>
      [getField fields "language", getField fields "scheme", getField fields "pattern"].all
        fun v => typeof v = "undefined" || typeof v = "string"
  | _ => false

/-- The `when` field is absent or well-typed per the declared model
(`string | string[] | ResourceFilter | ResourceFilter[]`). -/
def whenWellTyped : JSVal → Bool
  | .undefined => true
  | .str _ => true
  | .arr xs =>
      xs.all (fun v => typeof v = "string") || xs.all isResourceFilter
  | w => isResourceFilter w

/-- The `icon` field is absent or well-typed per the declared model
(`string | ThemableIcon`). -/
def iconWellTyped (icon : JSVal) : Bool :=
  typeof icon = "undefined" || typeof icon = "string" || isThemableIcon icon

/-- The `category` field is absent or well-typed (`string`). -/
def categoryWellTyped (c : JSVal) : Bool :=
  typeof c = "undefined" || typeof c = "string"

/-! ## Basic lemmas about the JavaScript value model -/

theorem getField_setField_same (fields : List (String × JSVal)) (key : String) (v : JSVal) :
    getField (setField fields key v) key = v := by
  induction fields with
  | nil => simp [setField, getField]
  | cons kv rest ih =>
      obtain ⟨k, w⟩ := kv
      by_cases h : k = key
      · simp [setField, h, getField]
      · simp [setField, h, getField, ih]

theorem getField_setField_other (fields : List (String × JSVal)) (key k : String) (v : JSVal)
    (h : k ≠ key) : getField (setField fields key v) k = getField fields k := by
  have hne : ¬ key = k := fun hk => h hk.symm
  induction fields with
  | nil => simp only [setField, getField, if_neg hne]
  | cons kv rest ih =>
      obtain ⟨k2, w⟩ := kv
      by_cases h2 : k2 = key
      · subst h2
        simp only [setField, if_pos rfl, getField, if_neg hne]
      · simp only [setField, if_neg h2, getField, ih]

theorem jsGet_objSet_same (fields : List (String × JSVal)) (key : String) (v : JSVal) :
    jsGet (objSet (.obj fields) key v) key = v := by
  simp [objSet, jsGet, getField_setField_same]

theorem jsGet_objSet_other (c : JSVal) (key k : String) (v : JSVal) (h : k ≠ key) :
    jsGet (objSet c key v) k = jsGet c k := by
  cases c <;> simp [objSet, jsGet]
  exact getField_setField_other _ _ _ _ h

theorem jsGet_obj_of_ne_undefined (c : JSVal) (k : String) (h : jsGet c k ≠ .undefined) :
    ∃ fields, c = .obj fields := by
  cases c <;> simp [jsGet] at h ⊢

theorem truthy_of_jsGet_string (c : JSVal) (k : String)
    (h : typeof (jsGet c k) = "string") : truthy c = true := by
  cases c <;> simp_all [jsGet, typeof, truthy]

theorem eq_undef_of_typeof_undefined (v : JSVal) (h : typeof v = "undefined") :
    v = .undefined := by
  cases v <;> simp_all [typeof]

theorem eq_str_of_typeof_string (v : JSVal) (h : typeof v = "string") :
    ∃ s, v = .str s := by
  cases v <;> simp_all [typeof]

/-! ## Lemmas about icon normalization and `isValidCommand` -/

theorem jsGet_normalizeIcon_other (root : String) (c : JSVal) (k : String) (h : k ≠ "icon") :
    jsGet (normalizeIcon root c) k = jsGet c k := by
  simp only [normalizeIcon]
  split
  · exact jsGet_objSet_other _ _ _ _ h
  · split
    · split
      · exact jsGet_objSet_other _ _ _ _ h
      · rfl
    · rfl

theorem isThemableIcon_shape (ic : JSVal) (h : isThemableIcon ic = true) :
    ∃ fields d l, ic = .obj fields ∧ getField fields "dark" = .str d ∧
      getField fields "light" = .str l := by
  simp only [isThemableIcon, Bool.and_eq_true, decide_eq_true_eq] at h
  obtain ⟨⟨⟨hobj, htr⟩, hd⟩, hl⟩ := h
  cases ic with
  | obj fields =>
      obtain ⟨d, hd2⟩ := eq_str_of_typeof_string _ hd
      obtain ⟨l, hl2⟩ := eq_str_of_typeof_string _ hl
      exact ⟨fields, d, l, rfl, by simpa [jsGet] using hd2, by simpa [jsGet] using hl2⟩
  | arr xs => simp [jsGet, typeof] at hd
  | null => simp [truthy] at htr
  | undefined => simp [typeof] at hobj
  | bool b => simp [typeof] at hobj
  | num n => simp [typeof] at hobj
  | str s => simp [typeof] at hobj

theorem isValidIcon_of_wellTyped (ic : JSVal) (h : iconWellTyped ic = true) :
    isValidIcon ic = .ok (true, []) := by
  simp only [iconWellTyped, Bool.or_eq_true, decide_eq_true_eq] at h
  rcases h with (h | h) | h
  · rw [eq_undef_of_typeof_undefined _ h]; rfl
  · obtain ⟨s, rfl⟩ := eq_str_of_typeof_string _ h
    rfl
  · obtain ⟨fields, d, l, rfl, hd, hl⟩ := isThemableIcon_shape _ h
    simp [isValidIcon, typeof, jsGet, hd, hl]

theorem isValidCommand_shape (root : String) (c : JSVal) (b : Bool) (c2 : JSVal)
    (msgs : List String) (h : isValidCommand root c = .ok (b, c2, msgs)) :
    (b = false ∧ c2 = c) ∨ (b = true ∧ c2 = normalizeIcon root c) := by
  unfold isValidCommand at h
  split at h
  · simp only [Except.ok.injEq, Prod.mk.injEq] at h
    exact Or.inl ⟨h.1.symm, h.2.1.symm⟩
  · split at h
    · simp only [Except.ok.injEq, Prod.mk.injEq] at h
      exact Or.inl ⟨h.1.symm, h.2.1.symm⟩
    · split at h
      · simp only [Except.ok.injEq, Prod.mk.injEq] at h
        exact Or.inl ⟨h.1.symm, h.2.1.symm⟩
      · split at h
        · simp only [Except.ok.injEq, Prod.mk.injEq] at h
          exact Or.inl ⟨h.1.symm, h.2.1.symm⟩
        · split at h
          · exact absurd h (by simp)
          · simp only [Except.ok.injEq, Prod.mk.injEq] at h
            exact Or.inl ⟨h.1.symm, h.2.1.symm⟩
          · simp only [Except.ok.injEq, Prod.mk.injEq] at h
            exact Or.inr ⟨h.1.symm, h.2.1.symm⟩

/-! ## Lemmas about the registration handler and the registry -/

theorem pushCommand_open (r : CommandRegistry) (v : JSVal) (h : r.frozen = false) :
    pushCommand r v = ⟨r.items ++ [v], false⟩ := by
  cases r
  simp_all [pushCommand]

theorem handleCommands_spec (root : String) (cmds : List JSVal) :
    ∀ (r : CommandRegistry) (errs : List String) (r2 : CommandRegistry) (errs2 : List String),
    r.frozen = false →
    handleCommands root cmds r errs = .ok (r2, errs2) →
    r2.items = r.items ++ cmds.filterMap (acceptedCmd root) ∧ r2.frozen = false := by
  induction cmds with
  | nil =>
      intro r errs r2 errs2 hfr h
      simp only [handleCommands, Except.ok.injEq, Prod.mk.injEq] at h
      obtain ⟨h1, _⟩ := h
      subst h1
      simp [hfr]
  | cons c rest ih =>
      intro r errs r2 errs2 hfr h
      rcases hv : isValidCommand root c with e | ⟨b, c2, msgs⟩
      · simp [handleCommands, handleCommand, hv] at h
      · cases b with
        | true =>
            simp only [handleCommands, handleCommand, hv] at h
            rw [pushCommand_open r c2 hfr] at h
            obtain ⟨h1, h2⟩ := ih ⟨r.items ++ [c2], false⟩ (errs ++ msgs) r2 errs2 rfl h
            refine ⟨?_, h2⟩
            rw [h1]
            simp [List.filterMap_cons, acceptedCmd, hv]
        | false =>
            simp only [handleCommands, handleCommand, hv] at h
            obtain ⟨h1, h2⟩ := ih r (errs ++ msgs) r2 errs2 hfr h
            refine ⟨?_, h2⟩
            rw [h1]
            simp [List.filterMap_cons, acceptedCmd, hv]

theorem runHandler_spec (batch : List (String × JSVal)) :
    ∀ (r r3 : CommandRegistry) (errsList : List (List String)),
    r.frozen = false →
    runHandler batch r = .ok (r3, errsList) →
    r3.items = r.items ++ acceptedBatch batch ∧ r3.frozen = true := by
  induction batch with
  | nil =>
      intro r r3 errsList hfr h
      simp only [runHandler, Except.ok.injEq, Prod.mk.injEq] at h
      obtain ⟨h1, _⟩ := h
      subst h1
      simp [acceptedBatch]
  | cons ext rest ih =>
      obtain ⟨root, value⟩ := ext
      intro r r3 errsList hfr h
      rcases hh : handleCommands root (candidatesOf value) r [] with e | ⟨r2, errs⟩
      · simp [runHandler, hh] at h
      · simp only [runHandler, hh] at h
        rcases hr : runHandler rest r2 with e | ⟨r4, errsList2⟩
        · simp [hr] at h
        · simp only [hr, Except.ok.injEq, Prod.mk.injEq] at h
          obtain ⟨h1, _⟩ := h
          subst h1
          obtain ⟨hi, hf⟩ := handleCommands_spec root (candidatesOf value) r [] r2 errs hfr hh
          obtain ⟨hi2, hf2⟩ := ih r2 r4 errsList2 hf hr
          refine ⟨?_, hf2⟩
          rw [hi2, hi, acceptedBatch]
          simp [List.append_assoc]

theorem runHandler_frozen (batch : List (String × JSVal)) :
    ∀ (r r3 : CommandRegistry) (errsList : List (List String)),
    runHandler batch r = .ok (r3, errsList) → r3.frozen = true := by
  induction batch with
  | nil =>
      intro r r3 errsList h
      simp only [runHandler, Except.ok.injEq, Prod.mk.injEq] at h
      obtain ⟨h1, _⟩ := h
      subst h1
      rfl
  | cons ext rest ih =>
      obtain ⟨root, value⟩ := ext
      intro r r3 errsList h
      rcases hh : handleCommands root (candidatesOf value) r [] with e | ⟨r2, errs⟩
      · simp [runHandler, hh] at h
      · simp only [runHandler, hh] at h
        rcases hr : runHandler rest r2 with e | ⟨r4, errsList2⟩
        · simp [hr] at h
        · simp only [hr, Except.ok.injEq, Prod.mk.injEq] at h
          obtain ⟨h1, _⟩ := h
          subst h1
          exact ih r2 r4 errsList2 hr

theorem foldl_pushCommand_frozen (r : CommandRegistry) (h : r.frozen = true) (vs : List JSVal) :
    List.foldl pushCommand r vs = r := by
  induction vs with
  | nil => rfl
  | cons v rest ih => simp [List.foldl, pushCommand, h, ih]

/-! ## Claim theorems -/

/-- Claim C1: the claim says every candidate whose `where` value (scalar or
nested in an array) lies outside the closed Location set is rejected by
`isValidCommand` with a where-specific error. On the code, `isValidCommand`
never invokes `isValidWhere`: the candidate below carries the invalid scalar
`where` value "bogus/location" — which `isValidWhere` itself would reject
with the where-specific error — yet it is accepted with no error reported. -/
theorem where_check_not_enforced :
    isValidCommand "/root"
        (.obj [("command", .str "a"), ("title", .str "b"),
          ("where", .str "bogus/location")]) =
      .ok (true,
        .obj [("command", .str "a"), ("title", .str "b"),
          ("where", .str "bogus/location")], []) ∧
    isValidWhere (.str "bogus/location") = (false, [optwhereMsg]) :=
  ⟨rfl, rfl⟩

/-- Claim C2: the claim says a candidate with an absent or ill-formed `when`
field is rejected by `isValidCommand` with the mandatory-when error. On the
code, `isValidCommand` never invokes `isValidWhen`: the candidate below has
no `when` field at all — `isValidWhen` itself would report the
mandatory-when error on the absent value — yet it is accepted with no error
reported. -/
theorem when_check_not_enforced :
    isValidCommand "/root" (.obj [("command", .str "a"), ("title", .str "b")]) =
      .ok (true, .obj [("command", .str "a"), ("title", .str "b")], []) ∧
    isValidWhen .undefined = (false, [requirefilterMsg]) :=
  ⟨rfl, rfl⟩

/-- Claim C3: when the registration handler drains a batch starting from the
empty open registry and returns normally, the registry contains exactly the
accepted (icon-normalized) candidates in arrival order within and across
extensions — so no invalid candidate ever appears — and is frozen. -/
theorem registry_exactly_accepted (batch : List (String × JSVal))
    (r3 : CommandRegistry) (errsList : List (List String))
    (h : runHandler batch ⟨[], false⟩ = .ok (r3, errsList)) :
    r3.items = acceptedBatch batch ∧ r3.frozen = true := by
  obtain ⟨h1, h2⟩ := runHandler_spec batch ⟨[], false⟩ r3 errsList rfl h
  exact ⟨by simpa using h1, h2⟩

/-- Claim C3 witness: a concrete two-extension batch — a valid and an invalid
candidate for the first extension, a valid one for the second. -/
theorem registry_exactly_accepted_witness :
    (⟨[JSVal.obj [("command", .str "x"), ("title", .str "X")],
       JSVal.obj [("command", .str "y"), ("title", .str "Y")]], true⟩ :
        CommandRegistry).items =
      acceptedBatch
        [("/a", .arr [.obj [("command", .str "x"), ("title", .str "X")], .null]),
         ("/b", .obj [("command", .str "y"), ("title", .str "Y")])] ∧
    (⟨[JSVal.obj [("command", .str "x"), ("title", .str "X")],
       JSVal.obj [("command", .str "y"), ("title", .str "Y")]], true⟩ :
        CommandRegistry).frozen = true :=
  registry_exactly_accepted
    [("/a", .arr [.obj [("command", .str "x"), ("title", .str "X")], .null]),
     ("/b", .obj [("command", .str "y"), ("title", .str "Y")])]
    ⟨[.obj [("command", .str "x"), ("title", .str "X")],
      .obj [("command", .str "y"), ("title", .str "Y")]], true⟩
    [[nonemptyMsg], []] rfl

/-- Claim C4: once the handler has drained a batch and frozen the registry,
any number of further attempted pushes leaves the registry — in particular
its content — exactly as it was at freeze time. -/
theorem frozen_registry_immutable (batch : List (String × JSVal))
    (r0 r : CommandRegistry) (errsList : List (List String)) (vs : List JSVal)
    (h : runHandler batch r0 = .ok (r, errsList)) :
    List.foldl pushCommand r vs = r :=
  foldl_pushCommand_frozen r (runHandler_frozen batch r0 r errsList h) vs

/-- Claim C4 witness: two attempted pushes after freezing a one-command batch
leave the registry untouched. -/
theorem frozen_registry_immutable_witness :
    List.foldl pushCommand
      ⟨[JSVal.obj [("command", .str "x"), ("title", .str "X")]], true⟩
      [.obj [("command", .str "z"), ("title", .str "Z")], .null] =
      ⟨[JSVal.obj [("command", .str "x"), ("title", .str "X")]], true⟩ :=
  frozen_registry_immutable
    [("/a", .obj [("command", .str "x"), ("title", .str "X")])]
    ⟨[], false⟩
    ⟨[JSVal.obj [("command", .str "x"), ("title", .str "X")]], true⟩
    [[]]
    [.obj [("command", .str "z"), ("title", .str "Z")], .null]
    rfl

/-- Claim C5: icon normalization for a validated candidate with extension
root `root` — a string icon `p` is replaced by `join(root, p)`; a
ThemableIcon has its `dark` and `light` fields replaced by the joined
values; an absent icon leaves the candidate untouched. -/
theorem normalizeIcon_spec (root : String) (c : JSVal) :
    (∀ p, jsGet c "icon" = .str p →
      jsGet (normalizeIcon root c) "icon" = .str (pathsJoin root p)) ∧
    (∀ fields d l, jsGet c "icon" = .obj fields →
      getField fields "dark" = .str d → getField fields "light" = .str l →
      jsGet (jsGet (normalizeIcon root c) "icon") "dark" = .str (pathsJoin root d) ∧
      jsGet (jsGet (normalizeIcon root c) "icon") "light" = .str (pathsJoin root l)) ∧
    (jsGet c "icon" = .undefined → normalizeIcon root c = c) := by
  refine ⟨?_, ?_, ?_⟩
  · intro p hp
    obtain ⟨fs, rfl⟩ := jsGet_obj_of_ne_undefined c "icon" (by rw [hp]; exact fun h => by cases h)
    simp only [normalizeIcon, hp]
    exact jsGet_objSet_same _ _ _
  · intro fields d l hic hd hl
    obtain ⟨fs, rfl⟩ := jsGet_obj_of_ne_undefined c "icon" (by rw [hic]; exact fun h => by cases h)
    have hic2 : getField fs "icon" = .obj fields := by simpa [jsGet] using hic
    have hthm : isThemableIcon (.obj fields) = true := by
      simp [isThemableIcon, typeof, truthy, jsGet, hd, hl]
    constructor
    · simp only [normalizeIcon, jsGet, objSet, hic2, hd, hl, hthm, if_true,
        getField_setField_same]
      rw [getField_setField_other _ _ _ _ (by simp), getField_setField_same]
    · simp only [normalizeIcon, jsGet, objSet, hic2, hd, hl, hthm, if_true,
        getField_setField_same]
  · intro h
    simp [normalizeIcon, h, isThemableIcon, typeof]

/-- Claim C5 witness: the spec's end-to-end example — candidate
`ext.go` with string icon `icons/go.png` and extension root `/ext/acme`
normalizes to icon `/ext/acme/icons/go.png`. -/
theorem normalizeIcon_spec_witness :
    jsGet (normalizeIcon "/ext/acme"
        (.obj [("command", .str "ext.go"), ("title", .str "Go"),
          ("icon", .str "icons/go.png")])) "icon" =
      .str (pathsJoin "/ext/acme" "icons/go.png") ∧
    pathsJoin "/ext/acme" "icons/go.png" = "/ext/acme/icons/go.png" :=
  ⟨(normalizeIcon_spec "/ext/acme"
      (.obj [("command", .str "ext.go"), ("title", .str "Go"),
        ("icon", .str "icons/go.png")])).1 "icons/go.png" rfl, rfl⟩

/-- Claim C6: command-action invocation — when activation of
`onCommand:<command id>` fails, the invocation's outcome is that failure and
the dispatcher is never called (the call flag is false); when activation
succeeds, the dispatcher runs and its outcome — result or failure — is the
invocation's own outcome. -/
theorem commandAction_invocation (E R : Type) (activate : String → Except E Unit)
    (execute : String → List JSVal → Except E R) (commandId : String)
    (args : List JSVal) :
    (∀ e, activate ("onCommand:" ++ commandId) = .error e →
      invokeCommandAction activate execute commandId args = (.error e, false)) ∧
    (∀ u, activate ("onCommand:" ++ commandId) = .ok u →
      invokeCommandAction activate execute commandId args =
        (execute commandId args, true)) := by
  constructor
  · intro e he
    simp [invokeCommandAction, he]
  · intro u hu
    simp [invokeCommandAction, hu]

/-- Claim C6 witness: an activation trigger that fails with "activation
failed" makes the invocation fail with that error and never reaches the
dispatcher. -/
theorem commandAction_invocation_witness :
    invokeCommandAction (fun _ => (Except.error "activation failed" : Except String Unit))
      (fun _ _ => (Except.ok 7 : Except String Nat)) "ext.go" [] =
      (Except.error "activation failed", false) :=
  (commandAction_invocation String Nat
    (fun _ => Except.error "activation failed") (fun _ _ => Except.ok 7)
    "ext.go" []).1 "activation failed" rfl

/-- Claim C7: every candidate with string `command`, string `title`, and each
of `category`, `where`, `when`, `icon` absent or well-typed per the data
model is accepted by `isValidCommand` with no error reported; the accepted
candidate is returned in its icon-normalized form. -/
theorem isValidCommand_accepts_wellTyped (root : String) (c : JSVal)
    (hcmd : typeof (jsGet c "command") = "string")
    (htitle : typeof (jsGet c "title") = "string")
    (hcat : categoryWellTyped (jsGet c "category") = true)
    (_hw : whereWellTyped (jsGet c "where") = true)
    (_hwn : whenWellTyped (jsGet c "when") = true)
    (hicon : iconWellTyped (jsGet c "icon") = true) :
    isValidCommand root c = .ok (true, normalizeIcon root c, []) := by
  have htr : truthy c = true := truthy_of_jsGet_string c "command" hcmd
  have hcatneg : ¬(truthy (jsGet c "category") = true ∧
      typeof (jsGet c "category") ≠ "string") := by
    simp only [categoryWellTyped, Bool.or_eq_true, decide_eq_true_eq] at hcat
    rcases hcat with h | h
    · rw [eq_undef_of_typeof_undefined _ h]
      simp [truthy]
    · simp [h]
  unfold isValidCommand
  rw [if_neg (by simp [htr]), if_neg (by simp [hcmd]), if_neg (by simp [htitle]),
    if_neg hcatneg, isValidIcon_of_wellTyped _ hicon]

/-- Claim C7 witness: a fully-populated well-typed candidate — string
command and title, string category, a Location array `where`, a string
`when`, and a ThemableIcon — is accepted with no error. -/
theorem isValidCommand_accepts_wellTyped_witness :
    isValidCommand "/ext"
        (.obj [("command", .str "ext.go"), ("title", .str "Go"),
          ("category", .str "Nav"), ("where", .arr [.str "editor/primary"]),
          ("when", .str "resourceLangId == markdown"),
          ("icon", .obj [("dark", .str "d.svg"), ("light", .str "l.svg")])]) =
      .ok (true,
        normalizeIcon "/ext"
          (.obj [("command", .str "ext.go"), ("title", .str "Go"),
            ("category", .str "Nav"), ("where", .arr [.str "editor/primary"]),
            ("when", .str "resourceLangId == markdown"),
            ("icon", .obj [("dark", .str "d.svg"), ("light", .str "l.svg")])]),
        []) :=
  isValidCommand_accepts_wellTyped "/ext"
    (.obj [("command", .str "ext.go"), ("title", .str "Go"),
      ("category", .str "Nav"), ("where", .arr [.str "editor/primary"]),
      ("when", .str "resourceLangId == markdown"),
      ("icon", .obj [("dark", .str "d.svg"), ("light", .str "l.svg")])])
    rfl rfl rfl rfl rfl rfl

/-- Claim C8: a truthy candidate whose `command` property is missing or not
a string is rejected with exactly one error — the `requirestring` message,
whose text literally contains `command`; and, end-to-end, the spec's batch of
a valid and a command-less candidate for one extension yields exactly one
registry entry (`foo.bar`/"Bar") and exactly one collected error. -/
theorem missing_command_rejected (root : String) (c : JSVal)
    (htr : truthy c = true) (hcmd : typeof (jsGet c "command") ≠ "string") :
    isValidCommand root c = .ok (false, c, [requirestringMsg "command"]) ∧
    requirestringMsg "command" =
      "property `" ++ "command" ++ "` is mandatory and must be of type `string`" ∧
    runHandler
        [("/r", .arr [.obj [("command", .str "foo.bar"), ("title", .str "Bar")],
          .obj [("title", .str "missing id")]])] ⟨[], false⟩ =
      .ok (⟨[.obj [("command", .str "foo.bar"), ("title", .str "Bar")]], true⟩,
        [[requirestringMsg "command"]]) := by
  refine ⟨?_, rfl, rfl⟩
  unfold isValidCommand
  rw [if_neg (by simp [htr]), if_pos hcmd]

/-- Claim C8 witness: the command-less candidate from the spec's end-to-end
example is rejected with exactly the command-citing error. -/
theorem missing_command_rejected_witness :
    isValidCommand "/r" (.obj [("title", .str "missing id")]) =
      .ok (false, .obj [("title", .str "missing id")], [requirestringMsg "command"]) :=
  (missing_command_rejected "/r" (.obj [("title", .str "missing id")])
    rfl (by decide)).1

/-- Claim C9 counterexample: the claim says every candidate whose `category`
is present and not a string is rejected with a category error. This
candidate's `category` is present (the number `0`) and not a string, yet
`isValidCommand` accepts it with no error: the category check tests
truthiness, not presence, so falsy non-string values slip through. -/
theorem category_falsy_accepted :
    jsGet (.obj [("command", .str "a"), ("title", .str "b"), ("category", .num 0)])
        "category" = .num 0 ∧
    typeof (JSVal.num 0) ≠ "string" ∧
    isValidCommand "/root"
        (.obj [("command", .str "a"), ("title", .str "b"), ("category", .num 0)]) =
      .ok (true,
        .obj [("command", .str "a"), ("title", .str "b"), ("category", .num 0)],
        []) :=
  ⟨rfl, by decide, rfl⟩

/-- Claim C9 (amended): for a candidate that passes the non-empty, `command`
and `title` checks, a truthy non-string `category` is rejected with the
category-citing error; a falsy non-string `category` (such as `0`, `false`
or `null`) is accepted as if absent. -/
theorem category_truthy_nonstring_rejected (root : String) (c : JSVal)
    (htr : truthy c = true)
    (hcmd : typeof (jsGet c "command") = "string")
    (htitle : typeof (jsGet c "title") = "string")
    (hcat1 : truthy (jsGet c "category") = true)
    (hcat2 : typeof (jsGet c "category") ≠ "string") :
    isValidCommand root c = .ok (false, c, [optstringMsg "category"]) := by
  unfold isValidCommand
  rw [if_neg (by simp [htr]), if_neg (by simp [hcmd]), if_neg (by simp [htitle]),
    if_pos ⟨hcat1, hcat2⟩]

/-- Claim C9 witness: a candidate whose `category` is the truthy non-string
`true` is rejected with the category-citing error. -/
theorem category_truthy_nonstring_rejected_witness :
    isValidCommand "/r"
        (.obj [("command", .str "a"), ("title", .str "b"), ("category", .bool true)]) =
      .ok (false,
        .obj [("command", .str "a"), ("title", .str "b"), ("category", .bool true)],
        [optstringMsg "category"]) :=
  category_truthy_nonstring_rejected "/r"
    (.obj [("command", .str "a"), ("title", .str "b"), ("category", .bool true)])
    rfl rfl rfl rfl (by decide)

/-- Claim C10: frame property of `isValidCommand` — on every failure path the
candidate is returned entirely unmodified (no icon normalization happens),
and on success every property other than `icon` is unchanged. -/
theorem isValidCommand_frame (root : String) (c : JSVal) (b : Bool) (c2 : JSVal)
    (msgs : List String) (h : isValidCommand root c = .ok (b, c2, msgs)) :
    (b = false → c2 = c) ∧
    (b = true → ∀ k, k ≠ "icon" → jsGet c2 k = jsGet c k) := by
  rcases isValidCommand_shape root c b c2 msgs h with ⟨hb, hc⟩ | ⟨hb, hc⟩
  · subst hb
    exact ⟨fun _ => hc, fun ht => absurd ht (by simp)⟩
  · subst hb
    refine ⟨fun hf => absurd hf (by simp), fun _ k hk => ?_⟩
    rw [hc]
    exact jsGet_normalizeIcon_other root c k hk

/-- Claim C10 witness: for the accepted `ext.go` candidate with a string
icon, every property other than `icon` reads the same before and after the
call. -/
theorem isValidCommand_frame_witness :
    (true = false →
      normalizeIcon "/ext/acme"
          (.obj [("command", .str "ext.go"), ("title", .str "Go"),
            ("icon", .str "icons/go.png")]) =
        .obj [("command", .str "ext.go"), ("title", .str "Go"),
          ("icon", .str "icons/go.png")]) ∧
    (true = true → ∀ k, k ≠ "icon" →
      jsGet (normalizeIcon "/ext/acme"
          (.obj [("command", .str "ext.go"), ("title", .str "Go"),
            ("icon", .str "icons/go.png")])) k =
        jsGet (.obj [("command", .str "ext.go"), ("title", .str "Go"),
          ("icon", .str "icons/go.png")]) k) :=
  isValidCommand_frame "/ext/acme"
    (.obj [("command", .str "ext.go"), ("title", .str "Go"),
      ("icon", .str "icons/go.png")])
    true
    (normalizeIcon "/ext/acme"
      (.obj [("command", .str "ext.go"), ("title", .str "Go"),
        ("icon", .str "icons/go.png")]))
    [] rfl
